import Mathlib

/-!
Verification development for the cached, rate-limited CoreSignal API clients:
`try/enhanced_client.py` (EnhancedCoreSignalClient, RateLimiter),
`core_sig/client.py` (CoreSignalClient, async httpx variant) and
`coresignal_client.py` (CoreSignalClient, synchronous requests variant).

Times are modelled as integers (seconds).  JSON values are modelled by the
inductive `Json` below; Python dictionaries are insertion-ordered association
lists.  Library primitives used by the code (`json.dumps`, `hashlib.md5`,
UTF-8 encoding, `re.sub` character sanitization) are given executable models
so that cache-key derivation is fully concrete.
-/

/-- A JSON value.  Python dicts are modelled as insertion-ordered
association lists, so two dicts that are equal as maps but were built in
different insertion orders are different `Json` trees. -/
inductive Json where
  | null
  | bool (b : Bool)
  | num (n : Int)
  | str (s : String)
  | arr (xs : List Json)
  | obj (kvs : List (String × Json))

/-- Python truthiness of a JSON value (`if data:`): `None`, `False`, `0`,
`""`, `[]` and `\x7b\x7d` are falsy, everything else truthy. -/
def Json.truthy : Json → Bool
  | .null => false
  | .bool b => b
  | .num n => n != 0
  | .str s => s != ""
  | .arr xs => !xs.isEmpty
  | .obj kvs => !kvs.isEmpty

/-- Lower-case hexadecimal digit. -/
def hexDigitChar (n : Nat) : Char :=
  if n < 10 then Char.ofNat (48 + n) else Char.ofNat (87 + n)

/-- Four-digit hexadecimal rendering, as used by JSON \u escapes. -/
def hex4 (n : Nat) : String :=
  String.mk [hexDigitChar (n / 4096 % 16), hexDigitChar (n / 256 % 16),
             hexDigitChar (n / 16 % 16), hexDigitChar (n % 16)]

/-- Model of CPython json string escaping with `ensure_ascii=True`: quote,
backslash and the usual control shorthands are escaped, every character
outside 0x20..0x7E becomes a \u escape (with surrogate pairs beyond the
BMP). -/
def escapeJsonChar (c : Char) : String :=
  if c = '"' then "\\\""
  else if c = '\\' then "\\\\"
  else if c = '\n' then "\\n"
  else if c = '\r' then "\\r"
  else if c = '\t' then "\\t"
  else if c.toNat = 8 then "\\b"
  else if c.toNat = 12 then "\\f"
  else if c.toNat < 32 || 126 < c.toNat then
    if c.toNat < 65536 then "\\u" ++ hex4 c.toNat
    else "\\u" ++ hex4 (55296 + (c.toNat - 65536) / 1024) ++
         "\\u" ++ hex4 (56320 + (c.toNat - 65536) % 1024)
  else String.singleton c

/-- Model of the json serialization of a Python string. -/
def quoteJson (s : String) : String :=
  "\"" ++ String.join (s.toList.map escapeJsonChar) ++ "\""

/-- Lexicographic (code-point) order on character lists, as Python compares
strings. -/
def charListLe : List Char → List Char → Bool
  | [], _ => true
  | _ :: _, [] => false
  | a :: as, b :: bs =>
      if a.toNat < b.toNat then true
      else if b.toNat < a.toNat then false
      else charListLe as bs

/-- Python string comparison `a <= b`. -/
def strLe (a b : String) : Bool := charListLe a.toList b.toList

/-- Insert a serialized member into a key-sorted list of members. -/
def insertPair (p : String × String) : List (String × String) → List (String × String)
  | [] => [p]
  | q :: qs => if strLe p.1 q.1 then p :: q :: qs else q :: insertPair p qs

/-- Stable insertion sort of serialized object members by key, modelling
`sort_keys=True` (Python sorts the items by key before emitting them;
emitting each item first and then sorting by key gives the same string). -/
def sortPairsByKey : List (String × String) → List (String × String)
  | [] => []
  | p :: ps => insertPair p (sortPairsByKey ps)

mutual
/-- Model of `json.dumps(v, sort_keys=True)` with the default separators
(", " between items, ": " between key and value, `ensure_ascii=True`).
Numbers are restricted to integers, which is all the repository sends. -/
def dumps : Json → String
  | .null => "null"
  | .bool true => "true"
  | .bool false => "false"
  | .num n => toString n
  | .str s => quoteJson s
  | .arr xs => "[" ++ String.intercalate ", " (dumpsArr xs) ++ "]"
  | .obj kvs =>
      "\x7b" ++ String.intercalate ", " ((sortPairsByKey (dumpsMembers kvs)).map Prod.snd) ++ "\x7d"

/-- Serialized forms of the elements of a JSON array. -/
def dumpsArr : List Json → List String
  | [] => []
  | x :: xs => dumps x :: dumpsArr xs

/-- Each object member paired with its serialized `"key": value` text. -/
def dumpsMembers : List (String × Json) → List (String × String)
  | [] => []
  | (k, v) :: kvs => (k, quoteJson k ++ ": " ++ dumps v) :: dumpsMembers kvs
end

/-- UTF-8 encoding of a single character (model of `str.encode()`). -/
def utf8Char (c : Char) : List Nat :=
  let n := c.toNat
  if n < 128 then [n]
  else if n < 2048 then [192 + n / 64, 128 + n % 64]
  else if n < 65536 then [224 + n / 4096, 128 + n / 64 % 64, 128 + n % 64]
  else [240 + n / 262144, 128 + n / 4096 % 64, 128 + n / 64 % 64, 128 + n % 64]

/-- UTF-8 bytes of a string. -/
def utf8Bytes (s : String) : List Nat :=
  (s.toList.map utf8Char).flatten

/-- 2^32, the modulus of all MD5 arithmetic. -/
def m32 : Nat := 4294967296

/-- 32-bit addition. -/
def add32 (a b : Nat) : Nat := (a + b) % m32

/-- 32-bit complement (arguments are < 2^32 throughout). -/
def not32 (a : Nat) : Nat := 4294967295 - a

/-- 32-bit left rotation. -/
def rotl32 (x n : Nat) : Nat :=
  (x % 2 ^ (32 - n)) * 2 ^ n + x / 2 ^ (32 - n)

/-- MD5 per-round shift amounts (RFC 1321). -/
def md5S : List Nat :=
  [7,12,17,22,7,12,17,22,7,12,17,22,7,12,17,22,
   5,9,14,20,5,9,14,20,5,9,14,20,5,9,14,20,
   4,11,16,23,4,11,16,23,4,11,16,23,4,11,16,23,
   6,10,15,21,6,10,15,21,6,10,15,21,6,10,15,21]

/-- MD5 sine-derived constants (RFC 1321). -/
def md5K : List Nat :=
  [0xd76aa478, 0xe8c7b756, 0x242070db, 0xc1bdceee,
   0xf57c0faf, 0x4787c62a, 0xa8304613, 0xfd469501,
   0x698098d8, 0x8b44f7af, 0xffff5bb1, 0x895cd7be,
   0x6b901122, 0xfd987193, 0xa679438e, 0x49b40821,
   0xf61e2562, 0xc040b340, 0x265e5a51, 0xe9b6c7aa,
   0xd62f105d, 0x02441453, 0xd8a1e681, 0xe7d3fbc8,
   0x21e1cde6, 0xc33707d6, 0xf4d50d87, 0x455a14ed,
   0xa9e3e905, 0xfcefa3f8, 0x676f02d9, 0x8d2a4c8a,
   0xfffa3942, 0x8771f681, 0x6d9d6122, 0xfde5380c,
   0xa4beea44, 0x4bdecfa9, 0xf6bb4b60, 0xbebfbc70,
   0x289b7ec6, 0xeaa127fa, 0xd4ef3085, 0x04881d05,
   0xd9d4d039, 0xe6db99e5, 0x1fa27cf8, 0xc4ac5665,
   0xf4292244, 0x432aff97, 0xab9423a7, 0xfc93a039,
   0x655b59c3, 0x8f0ccc92, 0xffeff47d, 0x85845dd1,
   0x6fa87e4f, 0xfe2ce6e0, 0xa3014314, 0x4e0811a1,
   0xf7537e82, 0xbd3af235, 0x2ad7d2bb, 0xeb86d391]

/-- MD5 padding: append 0x80, zero bytes up to 56 mod 64, then the bit
length as a 64-bit little-endian quantity. -/
def md5Pad (msg : List Nat) : List Nat :=
  let len := msg.length
  let padZeros := (119 - len % 64) % 64
  let bitLen := (len * 8) % 2 ^ 64
  msg ++ [128] ++ List.replicate padZeros 0 ++
    (List.range 8).map (fun i => bitLen / 2 ^ (8 * i) % 256)

/-- Little-endian 32-bit word number `g` of a 64-byte chunk. -/
def leWord (chunk : List Nat) (g : Nat) : Nat :=
  chunk.getD (4 * g) 0 + chunk.getD (4 * g + 1) 0 * 256 +
    chunk.getD (4 * g + 2) 0 * 65536 + chunk.getD (4 * g + 3) 0 * 16777216

/-- One of the 64 MD5 mixing operations. -/
def md5Round (chunk : List Nat) (st : Nat × Nat × Nat × Nat) (i : Nat) :
    Nat × Nat × Nat × Nat :=
  let a := st.1
  let b := st.2.1
  let c := st.2.2.1
  let d := st.2.2.2
  let fg : Nat × Nat :=
    if i < 16 then ((b &&& c) ||| (not32 b &&& d), i)
    else if i < 32 then ((d &&& b) ||| (not32 d &&& c), (5 * i + 1) % 16)
    else if i < 48 then (b ^^^ c ^^^ d, (3 * i + 5) % 16)
    else (c ^^^ (b ||| not32 d), (7 * i) % 16)
  let tmp := (fg.1 + a + md5K.getD i 0 + leWord chunk fg.2) % m32
  (d, add32 b (rotl32 tmp (md5S.getD i 0)), b, c)

/-- Digest one 64-byte chunk. -/
def md5Chunk (st : Nat × Nat × Nat × Nat) (chunk : List Nat) :
    Nat × Nat × Nat × Nat :=
  let r := (List.range 64).foldl (md5Round chunk) st
  (add32 st.1 r.1, add32 st.2.1 r.2.1, add32 st.2.2.1 r.2.2.1, add32 st.2.2.2 r.2.2.2)

/-- Fold the chunk digest over the message, `fuel` = number of chunks. -/
def md5Chunks : Nat → (Nat × Nat × Nat × Nat) → List Nat → Nat × Nat × Nat × Nat
  | 0, st, _ => st
  | n + 1, st, msg => md5Chunks n (md5Chunk st (msg.take 64)) (msg.drop 64)

/-- MD5 digest of a byte sequence, as four 32-bit state words. -/
def md5Digest (msg : List Nat) : Nat × Nat × Nat × Nat :=
  let padded := md5Pad msg
  md5Chunks (padded.length / 64) (1732584193, 4023233417, 2562383102, 271733878) padded

/-- Two lower-case hex digits of a byte. -/
def byteHexStr (b : Nat) : String :=
  String.mk [hexDigitChar (b / 16 % 16), hexDigitChar (b % 16)]

/-- Little-endian hex rendering of a 32-bit word, as in `hexdigest()`. -/
def wordHexLE (w : Nat) : String :=
  byteHexStr (w % 256) ++ byteHexStr (w / 256 % 256) ++
    byteHexStr (w / 65536 % 256) ++ byteHexStr (w / 16777216 % 256)

/-- Model of `hashlib.md5(s.encode()).hexdigest()`. -/
def md5Hex (s : String) : String :=
  let st := md5Digest (utf8Bytes s)
  wordHexLE st.1 ++ wordHexLE st.2.1 ++ wordHexLE st.2.2.1 ++ wordHexLE st.2.2.2

/-- The text of a cache file: either it parses as JSON (`json.loads`
succeeds and yields `d`) or it is corrupt (`json.loads` raises). -/
inductive FileContent where
  | valid (d : Json)
  | corrupt

/-- An on-disk cache file: its parse status and its mtime (the freshness
timestamp). -/
structure CacheEntry where
  content : FileContent
  mtime : Int

/-- The cache directory: an association of cache-file names to files. -/
abbrev Cache := List (String × CacheEntry)

/-- File lookup by name. -/
def lookupCache : Cache → String → Option CacheEntry
  | [], _ => none
  | (k, e) :: rest, key => if k = key then some e else lookupCache rest key

/-- Writing a cache file (overwrites any previous file of that name). -/
def saveCache (cache : Cache) (key : String) (e : CacheEntry) : Cache :=
  (key, e) :: cache.filter (fun kv => kv.1 != key)

/-- `EnhancedCoreSignalClient._get_cache_key`:
`md5(f"\x7bendpoint\x7d:\x7bjson.dumps(params, sort_keys=True)\x7d").hexdigest()`. -/
def getCacheKey (endpoint : String) (params : List (String × Json)) : String :=
  md5Hex (endpoint ++ ":" ++ dumps (.obj params))

/-- `EnhancedCoreSignalClient._get_cache_path`: `cache_dir / f"\x7bkey\x7d.json"`,
as a list of path components. -/
def getCachePath (cacheDir : List String) (cacheKey : String) : List String :=
  cacheDir ++ [cacheKey ++ ".json"]

/-- `EnhancedCoreSignalClient._is_cache_valid` (and, identically,
`CoreSignalClient._is_fresh` in core_sig): the file exists and
`now - mtime < ttl`. -/
def isCacheValid (ttl now : Int) : Option CacheEntry → Bool
  | none => false
  | some e => decide (now - e.mtime < ttl)

/-- `EnhancedCoreSignalClient._load_from_cache`: parse the file, returning
`None` on any error (missing or corrupt file). -/
def loadFromCache : Option CacheEntry → Option Json
  | some e =>
    match e.content with
    | .valid d => some d
    | .corrupt => none
  | none => none

/-- The cache-read block at the top of `EnhancedCoreSignalClient.get`/`post`:
if the entry is valid (fresh) and loads to truthy data, that data is served;
otherwise the network path is taken. -/
def cacheServes (ttl now : Int) (cache : Cache) (key : String) : Option Json :=
  let entry := lookupCache cache key
  if isCacheValid ttl now entry then
    match loadFromCache entry with
    | some d => if d.truthy then some d else none
    | none => none
  else none

/-- An HTTP response as the classification code sees it. -/
structure HResp where
  status : Nat
  body : Json
  retryAfter : Option Nat

/-- What the environment supplies for one request attempt: a response, or a
transport-level failure (`httpx.RequestError` / `requests.RequestException`). -/
inductive AttemptInput where
  | resp (r : HResp)
  | netError

/-- Result of one attempt inside `EnhancedCoreSignalClient._make_request`:
either the try-block returns a value, or a retryable exception propagates
(`wait` = seconds slept inside the attempt before raising: 60 for 429). -/
inductive AttemptClass where
  | done (d : Option Json)
  | retryEx (wait : Nat)

/-- Per-attempt classification in `EnhancedCoreSignalClient._make_request`:
404 returns None before `raise_for_status`; 429 sleeps 60 s and raises
`HTTPStatusError` (re-raised by the handler, hence retried); any 2xx/3xx
parses and returns the body; 401/403 are caught and return None; any other
error status re-raises and is retried. -/
def classifyEnhanced : AttemptInput → AttemptClass
  | .netError => .retryEx 0
  | .resp r =>
    if r.status = 404 then .done none
    else if r.status = 429 then .retryEx 60
    else if r.status < 400 then .done (some r.body)
    else if r.status = 401 || r.status = 403 then .done none
    else .retryEx 0

/-- The inter-attempt wait of
`wait_exponential(multiplier=1, min=1, max=10)` after failed attempt number
`attemptNumber` (1-based): `2 ^ attemptNumber` clamped to [1, 10]. -/
def tenacityWait (attemptNumber : Nat) : Nat :=
  min 10 (max 1 (2 ^ attemptNumber))

/-- The tenacity retry loop around `_make_request`
(`stop_after_attempt`, retry on `RequestError`/`HTTPStatusError`).
Returns (outcome, attempts made, sleeps performed in order); `.error`
models the exception that propagates once attempts are exhausted. -/
def makeRequestAux : Nat → Nat → List AttemptInput →
    Except Unit (Option Json) × Nat × List Nat
  | 0, _, _ => (.error (), 0, [])
  | _ + 1, _, [] => (.error (), 0, [])
  | fuel + 1, attemptNumber, inp :: rest =>
    match classifyEnhanced inp with
    | .done d => (.ok d, 1, [])
    | .retryEx w =>
      if fuel = 0 then (.error (), 1, [w])
      else
        let q := makeRequestAux fuel (attemptNumber + 1) rest
        (q.1, q.2.1 + 1, w :: tenacityWait attemptNumber :: q.2.2)

/-- `EnhancedCoreSignalClient._make_request` with a configurable attempt
limit (the code uses `stop_after_attempt(3)`). -/
def makeRequestN (maxAttempts : Nat) (inputs : List AttemptInput) :
    Except Unit (Option Json) × Nat × List Nat :=
  makeRequestAux maxAttempts 1 inputs

/-- Result of one `get`/`post` call: the value returned to the caller (or
the propagated exception), the cache afterwards, and whether the network
path (`_make_request`) was taken. -/
structure GetOut where
  result : Except Unit (Option Json)
  cache : Cache
  network : Bool

/-- `EnhancedCoreSignalClient.get` (and, with `json_data` for `params`,
`post` — the two bodies are identical apart from the HTTP verb): serve a
fresh truthy cache entry without touching the network; otherwise dispatch
(`net` is what `_make_request` produces for this dispatch) and persist the
response only when it is truthy. -/
def getOp (ttl now : Int) (cache : Cache) (endpoint : String)
    (params : List (String × Json)) (net : Except Unit (Option Json)) : GetOut :=
  let key := getCacheKey endpoint params
  match cacheServes ttl now cache key with
  | some d => ⟨.ok (some d), cache, false⟩
  | none =>
    match net with
    | .error e => ⟨.error e, cache, true⟩
    | .ok none => ⟨.ok none, cache, true⟩
    | .ok (some d) =>
      if d.truthy then ⟨.ok (some d), saveCache cache key ⟨.valid d, now⟩, true⟩
      else ⟨.ok (some d), cache, true⟩

/-- The `RateLimiter` state: configuration plus the timestamp window. -/
structure Limiter where
  maxRequests : Nat
  timeWindow : Int
  requests : List Int

/-- The pruning step of `RateLimiter.acquire`:
`[t for t in self.requests if now - t < self.time_window]`. -/
def pruneWindow (now w : Int) (ts : List Int) : List Int :=
  ts.filter (fun t => decide (now - t < w))

/-- One entry into the critical section of `RateLimiter.acquire`.  `none`
means the call did not complete: with the window full and `sleep_time > 0`
the code sleeps and recursively re-enters `acquire` while still holding the
non-reentrant `asyncio.Lock` (see `acquireStep`), and with
`max_requests = 0` it raises IndexError on `requests[0]`. -/
def acquireOnce (L : Limiter) (now : Int) : Option Limiter :=
  let pruned := pruneWindow now L.timeWindow L.requests
  if pruned.length ≥ L.maxRequests then
    match pruned.head? with
    | none => none
    | some t0 =>
      if L.timeWindow - (now - t0) > 0 then none
      else some ⟨L.maxRequests, L.timeWindow, pruned ++ [now]⟩
  else some ⟨L.maxRequests, L.timeWindow, pruned ++ [now]⟩

/-- A serialized trace of completed acquisitions at the given times (the
`asyncio.Lock` serializes all concurrent callers through the critical
section, so any concurrent execution is one such trace). -/
def runAcquires : Limiter → List Int → Option Limiter
  | L, [] => some L
  | L, t :: ts =>
    match acquireOnce L t with
    | some L2 => runAcquires L2 ts
    | none => none

/-- Possible fates of a single `acquire()` invocation. -/
inductive AcqOutcome where
  | completed (L2 : Limiter)
  | blocked
  | raised
  | fuelOut

/-- Step interpreter for `RateLimiter.acquire` as written: `lockHeld` says
whether this task already holds `self._lock` (the outer frame of the
recursion does).  `asyncio.Lock` is not reentrant and the only holder is
this very task, so entering `async with self._lock` with `lockHeld = true`
suspends forever (`.blocked`).  The recursion models
`await asyncio.sleep(sleep_time); return await self.acquire()`, executed at
time `now + sleep_time` with the lock still held. -/
def acquireStep : Bool → Nat → Limiter → Int → AcqOutcome
  | true, _, _, _ => .blocked
  | false, fuel, L, now =>
    let pruned := pruneWindow now L.timeWindow L.requests
    if pruned.length ≥ L.maxRequests then
      match pruned.head? with
      | none => .raised
      | some t0 =>
        let st := L.timeWindow - (now - t0)
        if st > 0 then
          match fuel with
          | 0 => .fuelOut
          | f + 1 => acquireStep true f L (now + st)
        else .completed ⟨L.maxRequests, L.timeWindow, pruned ++ [now]⟩
    else .completed ⟨L.maxRequests, L.timeWindow, pruned ++ [now]⟩

/-- The character class `[A-Za-z0-9_.-]` of `core_sig.client._sanitize`. -/
def isAllowedChar (c : Char) : Bool :=
  (65 ≤ c.toNat && c.toNat ≤ 90) || (97 ≤ c.toNat && c.toNat ≤ 122) ||
    (48 ≤ c.toNat && c.toNat ≤ 57) || c = '_' || c = '.' || c = '-'

/-- `core_sig.client._sanitize`: `re.sub(r'[^A-Za-z0-9_.-]', '_', s)` —
the pattern matches single characters, so this is a per-character map. -/
def sanitize (s : String) : String :=
  String.mk (s.toList.map (fun c => if isAllowedChar c then c else '_'))

/-- Python `s.strip("/")`: drop leading and trailing slashes. -/
def stripSlashes (s : String) : String :=
  String.mk (((s.toList.dropWhile (fun c => c = '/')).reverse.dropWhile
    (fun c => c = '/')).reverse)

/-- Python `s.replace("/", "_")` for the single-character pattern. -/
def replaceSlash (s : String) : String :=
  String.mk (s.toList.map (fun c => if c = '/' then '_' else c))

/-- The per-endpoint subdirectory name used by
`CoreSignalClient._cache_path` in core_sig:
`_sanitize(endpoint.strip("/").replace("/", "_"))`. -/
def csEndpointDir (endpoint : String) : String :=
  sanitize (replaceSlash (stripSlashes endpoint))

/-- `CoreSignalClient._cache_path` (core_sig):
`cache_dir / safe_ep / f"\x7bsafe_key\x7d.json"` as path components. -/
def csCachePath (cacheDir : List String) (endpoint cacheKey : String) : List String :=
  cacheDir ++ [csEndpointDir endpoint, sanitize cacheKey ++ ".json"]

/-- The relative cache-file name for the core_sig client, used as the key
into the modelled cache directory. -/
def csPathKey (endpoint cacheKey : String) : String :=
  csEndpointDir endpoint ++ "/" ++ sanitize cacheKey ++ ".json"

/-- Errors that `CoreSignalClient.get` (core_sig) can propagate:
`httpx.HTTPStatusError` from `raise_for_status`, `httpx.RequestError` from
the transport, or tenacity's `RetryError` once attempts are exhausted. -/
inductive CSErr where
  | httpStatus (code : Nat)
  | reqError
  | exhausted

/-- Result of one body execution of `CoreSignalClient.get` (core_sig). -/
structure CSGetOut where
  result : Except CSErr Json
  cache : Cache
  network : Bool

/-- One execution of the body of `CoreSignalClient.get` (core_sig): serve a
fresh parseable cache file (no truthiness check in this client), else hit
the network; `raise_for_status` raises for any status ≥ 400; a 2xx/3xx body
is cached (best effort) and returned. -/
def csGetOnce (ttl now : Int) (cache : Cache) (endpoint cacheKey : String)
    (input : AttemptInput) : CSGetOut :=
  let path := csPathKey endpoint cacheKey
  let entry := lookupCache cache path
  let hit : Option Json :=
    if isCacheValid ttl now entry then loadFromCache entry else none
  match hit with
  | some d => ⟨.ok d, cache, false⟩
  | none =>
    match input with
    | .netError => ⟨.error .reqError, cache, true⟩
    | .resp r =>
      if 400 ≤ r.status then ⟨.error (.httpStatus r.status), cache, true⟩
      else ⟨.ok r.body, saveCache cache path ⟨.valid r.body, now⟩, true⟩

/-- The tenacity wrapper on `CoreSignalClient.get` (core_sig):
`stop_after_attempt(4)`, retrying only on `httpx.RequestError` — an
`HTTPStatusError` propagates immediately.  Returns (outcome, cache,
number of network dispatches). -/
def csGetRun : Nat → Int → Int → Cache → String → String → List AttemptInput →
    Except CSErr Json × Cache × Nat
  | 0, _, _, cache, _, _, _ => (.error .exhausted, cache, 0)
  | _ + 1, _, _, cache, _, _, [] => (.error .exhausted, cache, 0)
  | fuel + 1, ttl, now, cache, ep, key, inp :: rest =>
    let o := csGetOnce ttl now cache ep key inp
    match o.result with
    | .error .reqError =>
      let q := csGetRun fuel ttl now o.cache ep key rest
      (q.1, q.2.1, q.2.2 + 1)
    | .error e => (.error e, o.cache, if o.network then 1 else 0)
    | .ok d => (.ok d, o.cache, if o.network then 1 else 0)

/-- Outcome of `CoreSignalClient._make_request` in the synchronous
`coresignal_client.py`: a 200 response, or the blank `requests.Response()`
returned after the loop breaks or exhausts. -/
inductive CSyncOutcome where
  | ok (body : Json)
  | blank

/-- The backoff the synchronous client uses for retried non-429 failures:
`time.sleep(2 ** attempt)`. -/
def csyncBackoff (attempt : Nat) : Nat := 2 ^ attempt

/-- The retry loop of `CoreSignalClient._make_request`
(coresignal_client.py): 200 returns; 422 and 401 break immediately; 429
sleeps `int(headers.get("Retry-After", 60))` and continues (even on the
last attempt); anything else (including 404!) sleeps `2 ** attempt` and
continues while attempts remain.  Returns (outcome, attempts made, sleeps
performed in order). -/
def csyncRequestAux : Nat → Nat → List AttemptInput → CSyncOutcome × Nat × List Nat
  | 0, _, _ => (.blank, 0, [])
  | _ + 1, _, [] => (.blank, 0, [])
  | fuel + 1, attempt, inp :: rest =>
    match inp with
    | .netError =>
      if fuel = 0 then (.blank, 1, [])
      else
        let q := csyncRequestAux fuel (attempt + 1) rest
        (q.1, q.2.1 + 1, csyncBackoff attempt :: q.2.2)
    | .resp r =>
      if r.status = 200 then (.ok r.body, 1, [])
      else if r.status = 422 then (.blank, 1, [])
      else if r.status = 429 then
        let w := r.retryAfter.getD 60
        if fuel = 0 then (.blank, 1, [w])
        else
          let q := csyncRequestAux fuel (attempt + 1) rest
          (q.1, q.2.1 + 1, w :: q.2.2)
      else if r.status = 401 then (.blank, 1, [])
      else
        if fuel = 0 then (.blank, 1, [])
        else
          let q := csyncRequestAux fuel (attempt + 1) rest
          (q.1, q.2.1 + 1, csyncBackoff attempt :: q.2.2)

/-- `CoreSignalClient._make_request` (coresignal_client.py) with the
configured `MAX_RETRIES` (3 in config.py). -/
def csyncRequest (maxRetries : Nat) (inputs : List AttemptInput) :
    CSyncOutcome × Nat × List Nat :=
  csyncRequestAux maxRetries 0 inputs

/-- A constructed client: just the resolved credential, which is all the
construction-time validation concerns. -/
structure ClientCfg where
  apiKey : String

/-- `CoreSignalClient.__init__` (coresignal_client.py): resolves
`api_key or CORESIGNAL_API_KEY` and raises `ValueError` when the result is
falsy. -/
def csyncInit (apiKeyArg : Option String) (envKey : String) : Except Unit ClientCfg :=
  let resolved :=
    match apiKeyArg with
    | none => envKey
    | some s => if s = "" then envKey else s
  if resolved = "" then .error () else .ok ⟨resolved⟩

/-- `EnhancedCoreSignalClient.__init__`: stores whatever key it is given —
no validation of any kind. -/
def enhancedInit (apiKey : String) : Except Unit ClientCfg :=
  .ok ⟨apiKey⟩

/-- `CoreSignalClient.__init__` (core_sig): `api_key or API_KEY`, where the
environment key itself may be absent (`os.getenv` returns None); no
validation. -/
def coreSigInit (apiKeyArg : Option String) (envKey : Option String) :
    Except Unit (Option String) :=
  .ok (match apiKeyArg with
    | none => envKey
    | some s => if s = "" then envKey else some s)

theorem lookupCache_single (k : String) (e : CacheEntry) :
    lookupCache [(k, e)] k = some e := by
  simp [lookupCache]

theorem lookupCache_save_self (cache : Cache) (key : String) (e : CacheEntry) :
    lookupCache (saveCache cache key e) key = some e := by
  simp [saveCache, lookupCache]

theorem cacheServes_nil (ttl now : Int) (key : String) :
    cacheServes ttl now [] key = none := rfl

theorem cacheServes_corrupt {cache : Cache} {key : String} {mt : Int}
    (h : lookupCache cache key = some ⟨.corrupt, mt⟩) (ttl now : Int) :
    cacheServes ttl now cache key = none := by
  simp [cacheServes, h, loadFromCache]

theorem cacheServes_expired {cache : Cache} {key : String} {e : CacheEntry}
    {ttl now : Int} (h : lookupCache cache key = some e)
    (hexp : ttl ≤ now - e.mtime) :
    cacheServes ttl now cache key = none := by
  simp [cacheServes, h, isCacheValid, not_lt.mpr hexp]

theorem cacheServes_save_fresh {ttl now msave : Int} (cache : Cache) (key : String)
    {d : Json} (ht : d.truthy = true) (hf : now - msave < ttl) :
    cacheServes ttl now (saveCache cache key ⟨.valid d, msave⟩) key = some d := by
  simp [cacheServes, lookupCache_save_self, isCacheValid, loadFromCache, hf, ht]

theorem getOp_of_serves {ttl now : Int} {cache : Cache} {endpoint : String}
    {params : List (String × Json)} {d : Json}
    (h : cacheServes ttl now cache (getCacheKey endpoint params) = some d)
    (net : Except Unit (Option Json)) :
    getOp ttl now cache endpoint params net = ⟨.ok (some d), cache, false⟩ := by
  simp [getOp, h]

theorem getOp_miss_result {ttl now : Int} {cache : Cache} {endpoint : String}
    {params : List (String × Json)}
    (h : cacheServes ttl now cache (getCacheKey endpoint params) = none)
    (net : Except Unit (Option Json)) :
    (getOp ttl now cache endpoint params net).result = net ∧
      (getOp ttl now cache endpoint params net).network = true := by
  match net with
  | .error e => simp [getOp, h]
  | .ok none => simp [getOp, h]
  | .ok (some d) =>
    by_cases ht : d.truthy = true <;> simp [getOp, h, ht]

theorem getOp_miss_truthy {ttl now : Int} {cache : Cache} {endpoint : String}
    {params : List (String × Json)} {d : Json}
    (h : cacheServes ttl now cache (getCacheKey endpoint params) = none)
    (ht : d.truthy = true) :
    getOp ttl now cache endpoint params (.ok (some d)) =
      ⟨.ok (some d), saveCache cache (getCacheKey endpoint params) ⟨.valid d, now⟩, true⟩ := by
  simp [getOp, h, ht]

theorem getOp_miss_falsy {ttl now : Int} {cache : Cache} {endpoint : String}
    {params : List (String × Json)} {d : Json}
    (h : cacheServes ttl now cache (getCacheKey endpoint params) = none)
    (ht : d.truthy = false) :
    getOp ttl now cache endpoint params (.ok (some d)) = ⟨.ok (some d), cache, true⟩ := by
  simp [getOp, h, ht]

theorem getOp_cache_of_ok_none (ttl now : Int) (cache : Cache) (endpoint : String)
    (params : List (String × Json)) :
    (getOp ttl now cache endpoint params (.ok none)).cache = cache := by
  unfold getOp
  rcases h : cacheServes ttl now cache (getCacheKey endpoint params) with _ | d <;> simp [h]

/-- Claim C3 (code bug): `RateLimiter.acquire` is supposed to eventually
return, appending one timestamp, from every starting state.  In fact, when
the pruned window is full the code sleeps and recursively re-invokes
`acquire` while this task still holds the non-reentrant `asyncio.Lock`, so
the inner `async with self._lock` suspends forever: from the full-window
state (max_requests = 1, window = 10, one fresh timestamp) `acquire` never
completes for any recursion depth, while from a non-full window it
completes and appends exactly one timestamp. -/
theorem C3_acquire_deadlock_when_full :
    (∀ (fuel : Nat) (L2 : Limiter),
      acquireStep false fuel ⟨1, 10, [0]⟩ 5 ≠ .completed L2) ∧
    (∀ fuel : Nat, acquireStep false (fuel + 1) ⟨1, 10, [0]⟩ 5 = .blocked) ∧
    acquireStep false 1 ⟨1, 10, []⟩ 5 = .completed ⟨1, 10, [5]⟩ := by
  refine ⟨fun fuel L2 => ?_, fun fuel => by simp [acquireStep, pruneWindow], rfl⟩
  match fuel with
  | 0 => simp [acquireStep, pruneWindow]
  | f + 1 =>
    intro h
    simp [acquireStep, pruneWindow] at h

/-- Claim C4: a cache entry whose age `now - mtime` is at least the TTL is
never served — `_is_cache_valid` fails, the network path is taken, and the
call returns exactly what the network dispatch produced, independently of
the stale entry's content. -/
theorem C4_expired_entry_refetch
    (ttl now : Int) (cache : Cache) (endpoint : String)
    (params : List (String × Json)) (e : CacheEntry)
    (net : Except Unit (Option Json))
    (hl : lookupCache cache (getCacheKey endpoint params) = some e)
    (hexp : ttl ≤ now - e.mtime) :
    (getOp ttl now cache endpoint params net).network = true ∧
    (getOp ttl now cache endpoint params net).result = net := by
  have hs := cacheServes_expired hl hexp
  have h := getOp_miss_result hs net
  exact ⟨h.2, h.1⟩

/-- Witness for C4 at a concrete input: an entry written at time 0 read at
`now = ttl = 10` is expired, the network is hit and its value returned. -/
theorem C4_expired_entry_refetch_witness :
    lookupCache [(getCacheKey "/e" [], ⟨.valid (.obj [("x", .num 1)]), 0⟩)]
        (getCacheKey "/e" []) = some ⟨.valid (.obj [("x", .num 1)]), 0⟩ ∧
    (10 : Int) ≤ 10 - 0 ∧
    ((getOp 10 10 [(getCacheKey "/e" [], ⟨.valid (.obj [("x", .num 1)]), 0⟩)]
        "/e" [] (.ok none)).network = true ∧
      (getOp 10 10 [(getCacheKey "/e" [], ⟨.valid (.obj [("x", .num 1)]), 0⟩)]
        "/e" [] (.ok none)).result = .ok none) :=
  ⟨lookupCache_single _ _, by decide,
    C4_expired_entry_refetch 10 10 _ "/e" [] _ (.ok none) (lookupCache_single _ _) (by decide)⟩

/-- Claim C8 (amended): a fresh but corrupt cache file never raises: the
call degrades to a network dispatch, and a successful response with a
truthy body overwrites the corrupt file (a successful falsy body, e.g. an
empty object, is returned but leaves the corrupt file in place — see the
counterexample). -/
theorem C8_corrupt_cache_recovery
    (ttl now mt : Int) (cache : Cache) (endpoint : String)
    (params : List (String × Json)) (d : Json)
    (hl : lookupCache cache (getCacheKey endpoint params) = some ⟨.corrupt, mt⟩)
    (ht : d.truthy = true) :
    (getOp ttl now cache endpoint params (.ok (some d))).network = true ∧
    (getOp ttl now cache endpoint params (.ok (some d))).result = .ok (some d) ∧
    lookupCache (getOp ttl now cache endpoint params (.ok (some d))).cache
      (getCacheKey endpoint params) = some ⟨.valid d, now⟩ := by
  have hs := cacheServes_corrupt hl ttl now
  rw [getOp_miss_truthy hs ht]
  exact ⟨rfl, rfl, lookupCache_save_self _ _ _⟩

/-- Witness for C8 at a concrete input: a corrupt entry plus a truthy
response body; the corrupt file ends up overwritten with the parsed body. -/
theorem C8_corrupt_cache_recovery_witness :
    lookupCache [(getCacheKey "/e" [], ⟨.corrupt, 0⟩)] (getCacheKey "/e" []) =
      some ⟨.corrupt, 0⟩ ∧
    (Json.obj [("x", .num 1)]).truthy = true ∧
    ((getOp 100 1 [(getCacheKey "/e" [], ⟨.corrupt, 0⟩)] "/e" []
        (.ok (some (.obj [("x", .num 1)])))).network = true ∧
      (getOp 100 1 [(getCacheKey "/e" [], ⟨.corrupt, 0⟩)] "/e" []
        (.ok (some (.obj [("x", .num 1)])))).result = .ok (some (.obj [("x", .num 1)])) ∧
      lookupCache (getOp 100 1 [(getCacheKey "/e" [], ⟨.corrupt, 0⟩)] "/e" []
          (.ok (some (.obj [("x", .num 1)])))).cache (getCacheKey "/e" []) =
        some ⟨.valid (.obj [("x", .num 1)]), 1⟩) :=
  ⟨lookupCache_single _ _, rfl,
    C8_corrupt_cache_recovery 100 1 0 _ "/e" [] _ (lookupCache_single _ _) rfl⟩

/-- Counterexample to C8 as stated: with a fresh corrupt cache file, a
successful response whose body is the (falsy) empty object does take the
network path but does not overwrite the corrupt file — the cache is
returned unchanged, still corrupt. -/
theorem C8_falsy_success_no_overwrite :
    getOp 100 1 [(getCacheKey "/e" [], ⟨.corrupt, 0⟩)] "/e" [] (.ok (some (.obj []))) =
      ⟨.ok (some (.obj [])), [(getCacheKey "/e" [], ⟨.corrupt, 0⟩)], true⟩ ∧
    FileContent.corrupt ≠ FileContent.valid (.obj []) := by
  constructor
  · exact getOp_miss_falsy (cacheServes_corrupt (lookupCache_single _ _) 100 1) rfl
  · intro h
    cases h

/-- Claim C5 (amended): in the enhanced client a 404 response makes
`_make_request` return None from the first attempt (no retry, no sleep,
regardless of the configured attempt limit) and `get` caches nothing; in
the core_sig client, however, a 404 makes `raise_for_status` raise
`httpx.HTTPStatusError`, which its tenacity policy (retry only on
`RequestError`) propagates to the caller after a single network dispatch,
with the cache unchanged — an exception, not an absent result. -/
theorem C5_not_found_behavior :
    (∀ (m : Nat) (body : Json) (ra : Option Nat) (rest : List AttemptInput),
      makeRequestN (m + 1) (.resp ⟨404, body, ra⟩ :: rest) = (.ok none, 1, [])) ∧
    (∀ (ttl now : Int) (cache : Cache) (endpoint : String)
        (params : List (String × Json)),
      (getOp ttl now cache endpoint params (.ok none)).cache = cache) ∧
    (∀ (f : Nat) (ttl now : Int) (cache : Cache) (ep key : String) (body : Json)
        (ra : Option Nat) (rest : List AttemptInput),
      isCacheValid ttl now (lookupCache cache (csPathKey ep key)) = false →
      csGetRun (f + 1) ttl now cache ep key (.resp ⟨404, body, ra⟩ :: rest) =
        (.error (.httpStatus 404), cache, 1)) := by
  refine ⟨fun m body ra rest => ?_, getOp_cache_of_ok_none, fun f ttl now cache ep key body ra rest h => ?_⟩
  · simp [makeRequestN, makeRequestAux, classifyEnhanced]
  · simp [csGetRun, csGetOnce, h]

/-- Witness for C5 at a concrete input: empty cache (so the freshness check
fails), one 404 response; the core_sig call propagates status 404. -/
theorem C5_not_found_behavior_witness :
    isCacheValid 604800 0 (lookupCache [] (csPathKey "/v1/people/x" "k")) = false ∧
    csGetRun 1 604800 0 [] "/v1/people/x" "k" [.resp ⟨404, .obj [], none⟩] =
      (.error (.httpStatus 404), [], 1) :=
  ⟨rfl, C5_not_found_behavior.2.2 0 604800 0 [] "/v1/people/x" "k" (.obj []) none [] rfl⟩

/-- Counterexample to C5 as stated: in the core_sig client a 404 does not
produce an absent value — the call ends in a propagated exception
(HTTPStatusError 404), after exactly one network dispatch and with the
cache untouched. -/
theorem C5_core_sig_404_raises :
    csGetRun 4 604800 0 [] "/v1/people/search" "k" [.resp ⟨404, .obj [], none⟩] =
      (.error (.httpStatus 404), [], 1) ∧
    (Except.error (CSErr.httpStatus 404) : Except CSErr Json) ≠ .ok (.obj []) := by
  constructor
  · rfl
  · intro h
    cases h

theorem csyncRequestAux_attempts_le (m a : Nat) (inputs : List AttemptInput) :
    (csyncRequestAux m a inputs).2.1 ≤ m := by
  induction m generalizing a inputs with
  | zero => simp [csyncRequestAux]
  | succ n ih =>
    match inputs with
    | [] => simp [csyncRequestAux]
    | inp :: rest =>
      match inp with
      | .netError =>
        by_cases hn : n = 0 <;> simp [csyncRequestAux, hn] <;> exact ih _ _
      | .resp r =>
        by_cases h200 : r.status = 200
        · simp [csyncRequestAux, h200]
        · by_cases h422 : r.status = 422
          · simp [csyncRequestAux, h200, h422]
          · by_cases h429 : r.status = 429
            · by_cases hn : n = 0 <;>
                simp [csyncRequestAux, h200, h422, h429, hn] <;>
                exact ih _ _
            · by_cases h401 : r.status = 401
              · simp [csyncRequestAux, h200, h422, h429, h401]
              · by_cases hn : n = 0 <;>
                  simp [csyncRequestAux, h200, h422, h429, h401, hn] <;>
                  exact ih _ _

/-- Claim C6 (amended): no `AuthenticationError` is surfaced by either
cited client, and nothing is written to the cache.  The enhanced client
catches the `HTTPStatusError` for both 401 and 403 and returns None from
the first attempt — no retry regardless of the configured limit,
indistinguishable from a 404.  The synchronous client ends the call
immediately only on 401 (it breaks and returns a blank response after one
attempt); a 403 falls into its generic else branch and is retried with
`2 ** attempt` backoff — re-entering the loop while attempts remain,
breaking to the blank response on the last one — with the total attempt
count bounded by the configured MAX_RETRIES. -/
theorem C6_auth_behavior :
    (∀ (m : Nat) (body : Json) (ra : Option Nat) (rest : List AttemptInput),
      makeRequestN (m + 1) (.resp ⟨401, body, ra⟩ :: rest) = (.ok none, 1, []) ∧
      makeRequestN (m + 1) (.resp ⟨403, body, ra⟩ :: rest) = (.ok none, 1, [])) ∧
    (∀ (m : Nat) (body : Json) (ra : Option Nat) (rest : List AttemptInput),
      csyncRequest (m + 1) (.resp ⟨401, body, ra⟩ :: rest) = (.blank, 1, [])) ∧
    (∀ (m a : Nat) (body : Json) (ra : Option Nat) (rest : List AttemptInput),
      csyncRequestAux (m + 2) a (.resp ⟨403, body, ra⟩ :: rest) =
        ((csyncRequestAux (m + 1) (a + 1) rest).1,
         (csyncRequestAux (m + 1) (a + 1) rest).2.1 + 1,
         csyncBackoff a :: (csyncRequestAux (m + 1) (a + 1) rest).2.2)) ∧
    (∀ (a : Nat) (body : Json) (ra : Option Nat) (rest : List AttemptInput),
      csyncRequestAux 1 a (.resp ⟨403, body, ra⟩ :: rest) = (.blank, 1, [])) ∧
    (∀ (m a : Nat) (inputs : List AttemptInput),
      (csyncRequestAux m a inputs).2.1 ≤ m) ∧
    (∀ (ttl now : Int) (cache : Cache) (endpoint : String)
        (params : List (String × Json)),
      (getOp ttl now cache endpoint params (.ok none)).cache = cache) := by
  refine ⟨fun m body ra rest => ⟨?_, ?_⟩, fun m body ra rest => ?_,
    fun m a body ra rest => ?_, fun a body ra rest => ?_,
    csyncRequestAux_attempts_le, getOp_cache_of_ok_none⟩
  · simp [makeRequestN, makeRequestAux, classifyEnhanced]
  · simp [makeRequestN, makeRequestAux, classifyEnhanced]
  · simp [csyncRequest, csyncRequestAux]
  · simp [csyncRequestAux]
  · simp [csyncRequestAux]

/-- Counterexample to C6 as stated: a 401 response does not surface an
error to the caller — the enhanced `_make_request` returns normally with
None, which is not the propagated-exception outcome. -/
theorem C6_auth_no_error_counterexample :
    (makeRequestN 3 [.resp ⟨401, .obj [], none⟩]).1 = .ok none ∧
    (Except.ok (none : Option Json) : Except Unit (Option Json)) ≠ .error () := by
  constructor
  · rfl
  · intro h
    cases h

/-- Claim C7 (amended): on a 429 with `Retry-After: 5` the synchronous
client sleeps exactly the server hint (5 s, hence at least 5 s) and then
re-enters the loop, classifying the next attempt independently by the same
rules; its attempt count never exceeds the configured MAX_RETRIES.  With no
header the fallback wait is the fixed default 60 s (see the
counterexample), not exponential backoff.  The enhanced async client never
reads the header: a 429 sleeps the fixed 60 s (which is also at least 5 s)
before its tenacity retry. -/
theorem C7_retry_after_behavior :
    (∀ (m a : Nat) (body : Json) (rest : List AttemptInput),
      csyncRequestAux (m + 2) a (.resp ⟨429, body, some 5⟩ :: rest) =
        ((csyncRequestAux (m + 1) (a + 1) rest).1,
         (csyncRequestAux (m + 1) (a + 1) rest).2.1 + 1,
         5 :: (csyncRequestAux (m + 1) (a + 1) rest).2.2)) ∧
    (∀ (m a : Nat) (inputs : List AttemptInput),
      (csyncRequestAux m a inputs).2.1 ≤ m) ∧
    (∀ (m : Nat) (body : Json) (ra : Option Nat) (rest : List AttemptInput),
      (makeRequestN (m + 2) (.resp ⟨429, body, ra⟩ :: rest)).2.2.head? = some 60 ∧
        5 ≤ 60) := by
  refine ⟨fun m a body rest => ?_, fun m a inputs => ?_, fun m body ra rest => ?_⟩
  · simp [csyncRequestAux]
  · induction m generalizing a inputs with
    | zero => simp [csyncRequestAux]
    | succ n ih =>
      match inputs with
      | [] => simp [csyncRequestAux]
      | inp :: rest =>
        match inp with
        | .netError =>
          by_cases hn : n = 0 <;>
            simp [csyncRequestAux, hn] <;>
            exact ih _ _
        | .resp r =>
          by_cases h200 : r.status = 200
          · simp [csyncRequestAux, h200]
          · by_cases h422 : r.status = 422
            · simp [csyncRequestAux, h200, h422]
            · by_cases h429 : r.status = 429
              · by_cases hn : n = 0 <;>
                  simp [csyncRequestAux, h200, h422, h429, hn] <;>
                  exact ih _ _
              · by_cases h401 : r.status = 401
                · simp [csyncRequestAux, h200, h422, h429, h401]
                · by_cases hn : n = 0 <;>
                    simp [csyncRequestAux, h200, h422, h429, h401, hn] <;>
                    exact ih _ _
  · exact ⟨by simp [makeRequestN, makeRequestAux, classifyEnhanced], by decide⟩

/-- Counterexample to C7 as stated: two successive 429 responses without a
`Retry-After` header make the synchronous client sleep the fixed default
60 s each time — not the exponential backoff (2^0 = 1, 2^1 = 2) the claim
predicts for the no-header fallback. -/
theorem C7_fallback_not_exponential :
    (csyncRequest 3 [.resp ⟨429, .obj [], none⟩, .resp ⟨429, .obj [], none⟩]).2.2 =
      [60, 60] ∧
    (60 : Nat) ≠ csyncBackoff 0 ∧ (60 : Nat) ≠ csyncBackoff 1 := by
  refine ⟨rfl, by decide, by decide⟩

/-- Claim C10 (amended): only the synchronous `coresignal_client.py`
constructor validates the credential — it raises `ValueError` exactly when
the resolved key is empty, so its successfully constructed clients always
hold a nonempty key.  The enhanced client stores an empty key without
complaint, and the core_sig client even accepts a missing (None)
environment key. -/
theorem C10_credential_validation :
    (∀ (arg : Option String) (env : String),
      csyncInit arg env = .error () ∨
        ∃ cfg, csyncInit arg env = .ok cfg ∧ cfg.apiKey ≠ "") ∧
    enhancedInit "" = .ok ⟨""⟩ ∧
    coreSigInit (some "") none = .ok none := by
  refine ⟨fun arg env => ?_, rfl, rfl⟩
  unfold csyncInit
  rcases arg with _ | s
  · by_cases h : env = "" <;> simp [h]
  · by_cases hs : s = ""
    · by_cases h : env = "" <;> simp [hs, h]
    · simp [hs]

/-- Counterexample to C10 as stated: constructing the enhanced client with
an empty credential succeeds — no construction-time error is raised. -/
theorem C10_enhanced_accepts_empty_key :
    enhancedInit "" = .ok ⟨""⟩ ∧
    (Except.ok (⟨""⟩ : ClientCfg) : Except Unit ClientCfg) ≠ .error () := by
  constructor
  · rfl
  · intro h
    cases h

theorem charToNat_inj {a b : Char} (h : a.toNat = b.toNat) : a = b := by
  apply Char.ext
  exact UInt32.toNat.inj h

theorem charListLe_total (a b : List Char) :
    charListLe a b = true ∨ charListLe b a = true := by
  induction a generalizing b with
  | nil => left; rfl
  | cons x xs ih =>
    match b with
    | [] => right; rfl
    | y :: ys =>
      rcases Nat.lt_trichotomy x.toNat y.toNat with h | h | h
      · left; simp [charListLe, h]
      · rcases ih ys with h2 | h2
        · left; simp [charListLe, h, Nat.lt_irrefl, h2]
        · right; simp [charListLe, h, Nat.lt_irrefl, h2]
      · right; simp [charListLe, h]

theorem charListLe_trans (a b c : List Char) (hab : charListLe a b = true)
    (hbc : charListLe b c = true) : charListLe a c = true := by
  induction a generalizing b c with
  | nil => rfl
  | cons x xs ih =>
    match b, c with
    | [], _ => simp [charListLe] at hab
    | _ :: _, [] => simp [charListLe] at hbc
    | y :: ys, z :: zs =>
      simp only [charListLe] at hab hbc ⊢
      split_ifs at hab hbc ⊢ <;>
        first
          | rfl
          | omega
          | exact ih ys zs hab hbc
          | simp_all

theorem charListLe_antisymm (a b : List Char) (hab : charListLe a b = true)
    (hba : charListLe b a = true) : a = b := by
  induction a generalizing b with
  | nil =>
    match b with
    | [] => rfl
    | y :: ys => simp [charListLe] at hba
  | cons x xs ih =>
    match b with
    | [] => simp [charListLe] at hab
    | y :: ys =>
      simp only [charListLe] at hab hba
      split_ifs at hab hba with h1 h2 <;> first
        | omega
        | exact congrArg₂ List.cons (charToNat_inj (by omega)) (ih ys hab hba)
        | simp_all

theorem stringToList_inj {a b : String} (h : a.toList = b.toList) : a = b := by
  cases a
  cases b
  simp only [String.toList] at h
  rw [h]

theorem strLe_total (a b : String) : strLe a b = true ∨ strLe b a = true :=
  charListLe_total a.toList b.toList

theorem strLe_trans {a b c : String} (hab : strLe a b = true)
    (hbc : strLe b c = true) : strLe a c = true :=
  charListLe_trans a.toList b.toList c.toList hab hbc

theorem strLe_antisymm {a b : String} (hab : strLe a b = true)
    (hba : strLe b a = true) : a = b :=
  stringToList_inj (charListLe_antisymm a.toList b.toList hab hba)

theorem insertPair_perm (p : String × String) (l : List (String × String)) :
    List.Perm (insertPair p l) (p :: l) := by
  induction l with
  | nil => exact List.Perm.refl _
  | cons q qs ih =>
    by_cases h : strLe p.1 q.1 = true
    · simp [insertPair, h]
    · simp only [insertPair, h, if_false]
      exact (ih.cons q).trans (List.Perm.swap p q qs)

theorem sortPairsByKey_perm (l : List (String × String)) :
    List.Perm (sortPairsByKey l) l := by
  induction l with
  | nil => exact List.Perm.refl _
  | cons p ps ih => exact (insertPair_perm p _).trans (ih.cons p)

theorem insertPair_sorted (p : String × String) (l : List (String × String))
    (h : l.Pairwise (fun a b => strLe a.1 b.1 = true)) :
    (insertPair p l).Pairwise (fun a b => strLe a.1 b.1 = true) := by
  induction l with
  | nil => simp [insertPair]
  | cons q qs ih =>
    rcases List.pairwise_cons.mp h with ⟨hq, hqs⟩
    by_cases hc : strLe p.1 q.1 = true
    · simp only [insertPair, hc, if_true]
      refine List.pairwise_cons.mpr ⟨?_, h⟩
      intro b hb
      rcases List.mem_cons.mp hb with rfl | hb2
      · exact hc
      · exact strLe_trans hc (hq b hb2)
    · simp only [insertPair, hc, if_false]
      refine List.pairwise_cons.mpr ⟨?_, ih hqs⟩
      intro b hb
      have hqp : strLe q.1 p.1 = true := (strLe_total p.1 q.1).resolve_left hc
      rcases List.mem_cons.mp ((insertPair_perm p qs).mem_iff.mp hb) with rfl | hb2
      · exact hqp
      · exact hq b hb2

theorem sortPairsByKey_sorted (l : List (String × String)) :
    (sortPairsByKey l).Pairwise (fun a b => strLe a.1 b.1 = true) := by
  induction l with
  | nil => simp [sortPairsByKey]
  | cons p ps ih => exact insertPair_sorted p _ ih

theorem sorted_nodupkeys_eq {l₁ l₂ : List (String × String)}
    (hp : List.Perm l₁ l₂)
    (hs₁ : l₁.Pairwise (fun a b => strLe a.1 b.1 = true))
    (hs₂ : l₂.Pairwise (fun a b => strLe a.1 b.1 = true))
    (hn : (l₁.map Prod.fst).Nodup) : l₁ = l₂ := by
  have hn1 : l₁.Pairwise (fun a b => a.1 ≠ b.1) := List.pairwise_map.mp hn
  have hn2 : l₂.Pairwise (fun a b => a.1 ≠ b.1) :=
    (hp.pairwise_iff (fun hxy => Ne.symm hxy)).mp hn1
  haveI : IsAntisymm (String × String)
      (fun a b => strLe a.1 b.1 = true ∧ a.1 ≠ b.1) :=
    ⟨fun a b h1 h2 => absurd (strLe_antisymm h1.1 h2.1) h1.2⟩
  exact List.eq_of_perm_of_sorted hp (hs₁.and hn1) (hs₂.and hn2)

theorem sortPairs_eq_of_perm {l₁ l₂ : List (String × String)}
    (hp : List.Perm l₁ l₂) (hn : (l₁.map Prod.fst).Nodup) :
    sortPairsByKey l₁ = sortPairsByKey l₂ := by
  apply sorted_nodupkeys_eq
  · exact (sortPairsByKey_perm l₁).trans (hp.trans (sortPairsByKey_perm l₂).symm)
  · exact sortPairsByKey_sorted l₁
  · exact sortPairsByKey_sorted l₂
  · exact ((sortPairsByKey_perm l₁).map Prod.fst).nodup_iff.mpr hn

theorem dumpsMembers_eq_map (l : List (String × Json)) :
    dumpsMembers l = l.map (fun kv => (kv.1, quoteJson kv.1 ++ ": " ++ dumps kv.2)) := by
  induction l with
  | nil => rfl
  | cons kv kvs ih =>
    cases kv
    simp [dumpsMembers, ih]

theorem dumps_obj_perm {ps₁ ps₂ : List (String × Json)} (hp : List.Perm ps₁ ps₂)
    (hn : (ps₁.map Prod.fst).Nodup) : dumps (.obj ps₁) = dumps (.obj ps₂) := by
  have hmap : ((ps₁.map (fun kv => (kv.1, quoteJson kv.1 ++ ": " ++ dumps kv.2))).map
      Prod.fst).Nodup := by
    rw [List.map_map]
    exact hn
  have hkey : sortPairsByKey (dumpsMembers ps₁) = sortPairsByKey (dumpsMembers ps₂) := by
    rw [dumpsMembers_eq_map, dumpsMembers_eq_map]
    exact sortPairs_eq_of_perm (hp.map _) hmap
  simp only [dumps]
  rw [hkey]

theorem getCacheKey_perm (ep : String) {ps₁ ps₂ : List (String × Json)}
    (hp : List.Perm ps₁ ps₂) (hn : (ps₁.map Prod.fst).Nodup) :
    getCacheKey ep ps₁ = getCacheKey ep ps₂ := by
  unfold getCacheKey
  rw [dumps_obj_perm hp hn]

/-- Claim C9 (amended): cache-key derivation splits across the two
clients.  In the enhanced client the key is the md5 of the endpoint plus
the sort-keys canonical serialization of the parameters, so maps that are
permutations of each other (with distinct keys) give the same key and the
same path — but that path is `cache_dir/<hexdigest>.json`, directly in the
cache directory with no per-endpoint subdirectory.  The [A-Za-z0-9_.-]
sanitization and the per-endpoint subdirectory belong to the core_sig
client, whose cache key is a caller-supplied string that is never hashed
or canonicalized. -/
theorem C9_cache_key_derivation
    (ep key : String) (cacheDir : List String) (ps₁ ps₂ : List (String × Json))
    (hp : List.Perm ps₁ ps₂) (hn : (ps₁.map Prod.fst).Nodup) :
    getCachePath cacheDir (getCacheKey ep ps₁) =
      getCachePath cacheDir (getCacheKey ep ps₂) ∧
    getCachePath cacheDir (getCacheKey ep ps₁) =
      cacheDir ++ [getCacheKey ep ps₁ ++ ".json"] ∧
    (∀ c ∈ (sanitize key).toList, isAllowedChar c = true) ∧
    (∀ c ∈ (csEndpointDir ep).toList, isAllowedChar c = true) ∧
    csCachePath cacheDir ep key =
      cacheDir ++ [csEndpointDir ep, sanitize key ++ ".json"] := by
  have hsan : ∀ s : String, ∀ c ∈ (sanitize s).toList, isAllowedChar c = true := by
    intro s c hc
    simp only [sanitize, String.toList] at hc
    rcases List.mem_map.mp hc with ⟨x, _, hx⟩
    by_cases hax : isAllowedChar x = true
    · rw [← hx]
      simpa [hax]
    · have : c = '_' := by
        rw [← hx]
        simp [hax]
      rw [this]
      decide
  refine ⟨?_, rfl, hsan key, ?_, rfl⟩
  · rw [getCacheKey_perm ep hp hn]
  · exact hsan _

/-- Witness for C9 at a concrete input: the same two-entry parameter map in
both insertion orders, an endpoint with characters outside the safe class,
and a raw cache key. -/
theorem C9_cache_key_derivation_witness :
    List.Perm [("b", Json.num 1), ("a", Json.num 2)]
      [("a", Json.num 2), ("b", Json.num 1)] ∧
    (([("b", Json.num 1), ("a", Json.num 2)]).map Prod.fst).Nodup ∧
    (getCachePath ["cache"] (getCacheKey "/v1/people/search" [("b", Json.num 1), ("a", Json.num 2)]) =
      getCachePath ["cache"] (getCacheKey "/v1/people/search" [("a", Json.num 2), ("b", Json.num 1)]) ∧
    getCachePath ["cache"] (getCacheKey "/v1/people/search" [("b", Json.num 1), ("a", Json.num 2)]) =
      ["cache"] ++ [getCacheKey "/v1/people/search" [("b", Json.num 1), ("a", Json.num 2)] ++ ".json"] ∧
    (∀ c ∈ (sanitize "user@x.com").toList, isAllowedChar c = true) ∧
    (∀ c ∈ (csEndpointDir "/v1/people/search").toList, isAllowedChar c = true) ∧
    csCachePath ["cache"] "/v1/people/search" "user@x.com" =
      ["cache"] ++ [csEndpointDir "/v1/people/search", sanitize "user@x.com" ++ ".json"]) :=
  ⟨List.Perm.swap _ _ _, by decide,
    C9_cache_key_derivation "/v1/people/search" "user@x.com" ["cache"]
      [("b", Json.num 1), ("a", Json.num 2)] [("a", Json.num 2), ("b", Json.num 1)]
      (List.Perm.swap _ _ _) (by decide)⟩

/-- Counterexample to C9 as stated: the enhanced client's derived path has
no per-endpoint subdirectory — the file sits directly in the cache
directory, so the path never decomposes as cache_dir/subdir/file. -/
theorem C9_no_endpoint_subdirectory :
    ¬ ∃ (sub file : String),
      getCachePath ["cache"] (getCacheKey "/v1/people/search" []) =
        ["cache", sub, file] := by
  rintro ⟨sub, file, h⟩
  have hl := congrArg List.length h
  simp [getCachePath] at hl

/-- Claim C1: if a first call R1 misses the cache and its network dispatch
succeeds with a truthy body `d` (so the response is cached at time `now₁`),
then any second call R2 with the same endpoint and canonically-equal
parameters (a permutation of the same key-value pairs, keys distinct) at
any time `now₂` within the TTL is served from the cache: R2 performs no
network dispatch at all — its result is `d` for every possible network
environment — so the pair makes at most one dispatch in total. -/
theorem C1_cache_hit_within_ttl
    (ttl now₁ now₂ : Int) (cache : Cache) (ep : String)
    (ps₁ ps₂ : List (String × Json)) (d : Json)
    (net₂ : Except Unit (Option Json))
    (hp : List.Perm ps₁ ps₂) (hn : (ps₁.map Prod.fst).Nodup)
    (hmiss : cacheServes ttl now₁ cache (getCacheKey ep ps₁) = none)
    (ht : d.truthy = true) (hfresh : now₂ - now₁ < ttl) :
    (getOp ttl now₁ cache ep ps₁ (.ok (some d))).network = true ∧
    getOp ttl now₂ (getOp ttl now₁ cache ep ps₁ (.ok (some d))).cache ep ps₂ net₂ =
      ⟨.ok (some d), (getOp ttl now₁ cache ep ps₁ (.ok (some d))).cache, false⟩ := by
  rw [getOp_miss_truthy hmiss ht]
  refine ⟨rfl, ?_⟩
  have hkey : getCacheKey ep ps₂ = getCacheKey ep ps₁ :=
    (getCacheKey_perm ep hp hn).symm
  apply getOp_of_serves
  rw [hkey]
  exact cacheServes_save_fresh cache (getCacheKey ep ps₁) ht hfresh

/-- Witness for C1 at a concrete input: empty starting cache, parameters
given in two insertion orders, a truthy response, and a second call 100
seconds later with a one-week TTL. -/
theorem C1_cache_hit_within_ttl_witness :
    List.Perm [("b", Json.num 1), ("a", Json.num 2)]
      [("a", Json.num 2), ("b", Json.num 1)] ∧
    (([("b", Json.num 1), ("a", Json.num 2)]).map Prod.fst).Nodup ∧
    cacheServes 604800 0 [] (getCacheKey "/v1/people/search" [("b", Json.num 1), ("a", Json.num 2)]) = none ∧
    (Json.obj [("ok", .bool true)]).truthy = true ∧
    (100 : Int) - 0 < 604800 ∧
    ((getOp 604800 0 [] "/v1/people/search" [("b", Json.num 1), ("a", Json.num 2)]
        (.ok (some (.obj [("ok", .bool true)])))).network = true ∧
      getOp 604800 100
          (getOp 604800 0 [] "/v1/people/search" [("b", Json.num 1), ("a", Json.num 2)]
            (.ok (some (.obj [("ok", .bool true)])))).cache
          "/v1/people/search" [("a", Json.num 2), ("b", Json.num 1)] (.ok none) =
        ⟨.ok (some (.obj [("ok", .bool true)])),
          (getOp 604800 0 [] "/v1/people/search" [("b", Json.num 1), ("a", Json.num 2)]
            (.ok (some (.obj [("ok", .bool true)])))).cache, false⟩) :=
  ⟨List.Perm.swap _ _ _, by decide, rfl, rfl, by decide,
    C1_cache_hit_within_ttl 604800 0 100 [] "/v1/people/search"
      [("b", Json.num 1), ("a", Json.num 2)] [("a", Json.num 2), ("b", Json.num 1)]
      (.obj [("ok", .bool true)]) (.ok none)
      (List.Perm.swap _ _ _) (by decide) rfl rfl (by decide)⟩

theorem acquireOnce_some_iff {L : Limiter} {now : Int} {L2 : Limiter} :
    acquireOnce L now = some L2 ↔
      ((pruneWindow now L.timeWindow L.requests).length < L.maxRequests ∧
        L2 = ⟨L.maxRequests, L.timeWindow,
          pruneWindow now L.timeWindow L.requests ++ [now]⟩) := by
  unfold acquireOnce
  by_cases hfull : (pruneWindow now L.timeWindow L.requests).length ≥ L.maxRequests
  · rcases hh : (pruneWindow now L.timeWindow L.requests).head? with _ | t0
    · simp only [hfull, if_pos, hh]
      constructor
      · intro h
        cases h
      · intro h
        omega
    · have ht0 : t0 ∈ pruneWindow now L.timeWindow L.requests := by
        apply List.mem_of_mem_head?
        rw [hh]
        rfl
      simp only [pruneWindow] at ht0
      have hdec : decide (now - t0 < L.timeWindow) = true := (List.mem_filter.mp ht0).2
      have hlt : now - t0 < L.timeWindow := of_decide_eq_true hdec
      have hpos : L.timeWindow - (now - t0) > 0 := by omega
      simp only [hfull, if_pos, hh, hpos]
      constructor
      · intro h
        cases h
      · intro h
        omega
  · have hlt := Nat.lt_of_not_le hfull
    simp only [if_neg hfull]
    constructor
    · intro h
      exact ⟨hlt, (Option.some_inj.mp h).symm⟩
    · intro h
      rw [h.2]

theorem runAcquires_split (ts₁ ts₂ : List Int) (L L2 : Limiter)
    (h : runAcquires L (ts₁ ++ ts₂) = some L2) :
    ∃ Lm, runAcquires L ts₁ = some Lm ∧ runAcquires Lm ts₂ = some L2 := by
  induction ts₁ generalizing L with
  | nil => exact ⟨L, rfl, h⟩
  | cons t ts ih =>
    simp only [List.cons_append, runAcquires] at h ⊢
    rcases ha : acquireOnce L t with _ | Lmid
    · rw [ha] at h
      simp at h
    · rw [ha] at h
      simp only at h
      rcases ih Lmid h with ⟨Lm, h1, h2⟩
      exact ⟨Lm, h1, h2⟩

theorem runAcquires_fields (ts : List Int) (L L2 : Limiter)
    (h : runAcquires L ts = some L2) :
    L2.maxRequests = L.maxRequests ∧ L2.timeWindow = L.timeWindow := by
  induction ts generalizing L with
  | nil =>
    simp only [runAcquires, Option.some_inj] at h
    rw [← h]
    exact ⟨rfl, rfl⟩
  | cons t ts ih =>
    simp only [runAcquires] at h
    rcases ha : acquireOnce L t with _ | Lmid
    · rw [ha] at h
      simp at h
    · rw [ha] at h
      simp only at h
      rcases acquireOnce_some_iff.mp ha with ⟨_, rfl⟩
      have hi := ih _ h
      exact hi

theorem runAcquires_count_fresh (ts : List Int) (L L2 : Limiter) (T u : Int)
    (hb : ∀ t ∈ ts, t ≤ T) (hu : T - u < L.timeWindow)
    (h : runAcquires L ts = some L2) :
    L.requests.count u + ts.count u ≤ L2.requests.count u := by
  induction ts generalizing L with
  | nil =>
    simp only [runAcquires, Option.some_inj] at h
    rw [← h]
    simp
  | cons t ts ih =>
    simp only [runAcquires] at h
    rcases ha : acquireOnce L t with _ | Lmid
    · rw [ha] at h
      simp at h
    · rw [ha] at h
      simp only at h
      rcases acquireOnce_some_iff.mp ha with ⟨_, rfl⟩
      have htT : t ≤ T := hb t (List.mem_cons_self t ts)
      have hfresh : decide (t - u < L.timeWindow) = true := by
        apply decide_eq_true
        omega
      have hcount : (pruneWindow t L.timeWindow L.requests).count u =
          L.requests.count u := List.count_filter hfresh
      have hIH := ih ⟨L.maxRequests, L.timeWindow, pruneWindow t L.timeWindow L.requests ++ [t]⟩
        (fun x hx => hb x (List.mem_cons_of_mem t hx)) hu h
      simp only [List.count_append, hcount] at hIH
      simp only [List.count_cons, List.count_nil] at hIH ⊢
      omega

theorem runAcquires_length (ts : List Int) (L L2 : Limiter)
    (h0 : L.requests.length ≤ L.maxRequests) (h : runAcquires L ts = some L2) :
    L2.requests.length ≤ L2.maxRequests := by
  induction ts generalizing L with
  | nil =>
    simp only [runAcquires, Option.some_inj] at h
    rw [← h]
    exact h0
  | cons t ts ih =>
    simp only [runAcquires] at h
    rcases ha : acquireOnce L t with _ | Lmid
    · rw [ha] at h
      simp at h
    · rw [ha] at h
      simp only at h
      rcases acquireOnce_some_iff.mp ha with ⟨hlen, rfl⟩
      refine ih ⟨L.maxRequests, L.timeWindow, pruneWindow t L.timeWindow L.requests ++ [t]⟩ ?_ h
      simp only [List.length_append, List.length_cons, List.length_nil]
      omega

theorem filter_nth_split {α : Type} (p : α → Bool) (l : List α) (n : Nat)
    (hn : n < (l.filter p).length) :
    ∃ l₁ x l₂, l = l₁ ++ x :: l₂ ∧ p x = true ∧ (l₁.filter p).length = n := by
  induction l generalizing n with
  | nil => simp at hn
  | cons a as ih =>
    by_cases hpa : p a = true
    · match n with
      | 0 => exact ⟨[], a, as, rfl, hpa, rfl⟩
      | m + 1 =>
        have hm : m < (as.filter p).length := by
          simp [List.filter_cons, hpa] at hn
          omega
        rcases ih m hm with ⟨l₁, x, l₂, rfl, hpx, hlen⟩
        exact ⟨a :: l₁, x, l₂, rfl, hpx, by simp [List.filter_cons, hpa, hlen]⟩
    · have hm : n < (as.filter p).length := by
        simpa [List.filter_cons, hpa] using hn
      rcases ih n hm with ⟨l₁, x, l₂, rfl, hpx, hlen⟩
      exact ⟨a :: l₁, x, l₂, rfl, hpx, by simp [List.filter_cons, hpa, hlen]⟩

/-- Claim C2: for every serialized trace of completed acquisitions at
nondecreasing times, starting from a freshly constructed limiter: (a) no
more than `maxRequests` acquisitions — hence network dispatches, each of
which performs exactly one acquire — complete in any half-open window of
length `timeWindow`; (b) the invariant holds afterwards: at any instant
the stored timestamp sequence has at most `maxRequests` entries newer than
`now - timeWindow`; and (c) every completed acquire first prunes the stale
timestamps and appends exactly the current time. -/
theorem C2_rate_limiter_window_bound
    (maxR : Nat) (w : Int) (ts : List Int) (L2 : Limiter)
    (hsort : List.Sorted (· ≤ ·) ts)
    (hrun : runAcquires ⟨maxR, w, []⟩ ts = some L2) :
    (∀ a : Int, ts.countP (fun t => decide (a ≤ t) && decide (t < a + w)) ≤ maxR) ∧
    (∀ now : Int, (pruneWindow now w L2.requests).length ≤ maxR) ∧
    (∀ (L : Limiter) (now : Int) (L3 : Limiter), acquireOnce L now = some L3 →
      L3.requests = pruneWindow now L.timeWindow L.requests ++ [now]) := by
  refine ⟨?_, ?_, ?_⟩
  · intro a
    by_contra hcon
    push_neg at hcon
    rw [List.countP_eq_length_filter] at hcon
    rcases filter_nth_split _ ts maxR hcon with ⟨ts₁, x, ts₂, rfl, hpx, hlen⟩
    rcases runAcquires_split ts₁ (x :: ts₂) _ _ hrun with ⟨Lm, h1, h2⟩
    have hf := runAcquires_fields _ _ _ h1
    have hstep : ∃ L3, acquireOnce Lm x = some L3 := by
      simp only [runAcquires] at h2
      rcases ha : acquireOnce Lm x with _ | L3
      · rw [ha] at h2
        simp at h2
      · exact ⟨L3, rfl⟩
    rcases hstep with ⟨L3, ha⟩
    have hbound := (acquireOnce_some_iff.mp ha).1
    have hax : a ≤ x ∧ x < a + w := by simpa using hpx
    have hle : ∀ t ∈ ts₁, t ≤ x :=
      fun t ht => (List.pairwise_append.mp hsort).2.2 t ht x (List.mem_cons_self x ts₂)
    have hsub : (ts₁.filter (fun t => decide (a ≤ t) && decide (t < a + w))).Subperm
        (pruneWindow x Lm.timeWindow Lm.requests) := by
      rw [List.subperm_ext_iff]
      intro u hu
      have hpu : (decide (a ≤ u) && decide (u < a + w)) = true := (List.mem_filter.mp hu).2
      have hau : a ≤ u ∧ u < a + w := by simpa using hpu
      have hw : Lm.timeWindow = w := hf.2
      have hfreshu : decide (x - u < Lm.timeWindow) = true := by
        apply decide_eq_true
        rw [hw]
        omega
      have hstart := runAcquires_count_fresh ts₁ ⟨maxR, w, []⟩ Lm x u hle
        (by rw [hw] at hfreshu; exact of_decide_eq_true hfreshu) h1
      simp only [List.count_nil, Nat.zero_add] at hstart
      have hpc : List.count u (pruneWindow x Lm.timeWindow Lm.requests) =
          List.count u Lm.requests := List.count_filter hfreshu
      calc (ts₁.filter (fun t => decide (a ≤ t) && decide (t < a + w))).count u
          ≤ ts₁.count u := (List.filter_sublist ts₁).count_le u
        _ ≤ Lm.requests.count u := hstart
        _ = (pruneWindow x Lm.timeWindow Lm.requests).count u := hpc.symm
    have hlenle := hsub.length_le
    have hdm : Lm.maxRequests = maxR := hf.1
    have hlm : maxR ≤ (pruneWindow x Lm.timeWindow Lm.requests).length := by
      rw [← hlen]
      exact hlenle
    omega
  · intro now
    have hl := runAcquires_length ts _ _ (by simp) hrun
    have hf := runAcquires_fields _ _ _ hrun
    calc (pruneWindow now w L2.requests).length
        ≤ L2.requests.length := List.length_filter_le _ _
      _ ≤ L2.maxRequests := hl
      _ = maxR := hf.1
  · intro L now L3 ha
    rcases acquireOnce_some_iff.mp ha with ⟨_, rfl⟩
    rfl

/-- Witness for C2 at a concrete input: limiter with max 2 per 10 s; three
acquisitions at times 0, 1, 11 complete (the third only after times 0 and
1 fall out of the window), and every length-10 window holds at most 2. -/
theorem C2_rate_limiter_window_bound_witness :
    List.Sorted (· ≤ ·) [(0 : Int), 1, 11] ∧
    runAcquires ⟨2, 10, []⟩ [0, 1, 11] = some ⟨2, 10, [11]⟩ ∧
    ((∀ a : Int,
        List.countP (fun t => decide (a ≤ t) && decide (t < a + 10)) [(0 : Int), 1, 11] ≤ 2) ∧
      (∀ now : Int, (pruneWindow now 10 (Limiter.mk 2 10 [11]).requests).length ≤ 2) ∧
      (∀ (L : Limiter) (now : Int) (L3 : Limiter), acquireOnce L now = some L3 →
        L3.requests = pruneWindow now L.timeWindow L.requests ++ [now])) :=
  ⟨by decide, rfl,
    C2_rate_limiter_window_bound 2 10 [0, 1, 11] ⟨2, 10, [11]⟩ (by decide) rfl⟩
